import Mathlib

/-!
Verification of the payoff engine of an options-strategy tool.

The source is `app/main.py` (data model `OptionLeg`, functions `payoff`
and `compute_curve`, and the inference block of `main`) together with the
translation lookup `t` of `app/i18n.py`. Real-valued quantities are
embedded as rationals; NumPy operations (`linspace`, `max`, `min`,
`argmax`, `argmin`) are embedded by Lean functions with their documented
semantics (`argmax`/`argmin` return the first index attaining the
extreme value).
-/

namespace OptionsLab

/-- One option position, `OptionLeg` in `app/main.py`. `type` is
`"CALL"` or `"PUT"`; `pos` is one of the four combined position codes. -/
structure OptionLeg where
  type : String
  pos : String
  quantity : ℤ
  premium : ℚ
  strike : ℚ
deriving DecidableEq, Repr

/-- Single-leg P/L at expiry, `payoff` in `app/main.py`. -/
def payoff (stock_price : ℚ) (leg : OptionLeg) : ℚ :=
  if leg.type = "CALL" then
    if leg.pos = "LONG_CALL" then
      max (stock_price - leg.strike) 0 - leg.premium
    else
      -(max (stock_price - leg.strike) 0) + leg.premium
  else
    if leg.pos = "LONG_PUT" then
      max (leg.strike - stock_price) 0 - leg.premium
    else
      -(max (leg.strike - stock_price) 0) + leg.premium

/-- `np.linspace lower upper 400`: 400 evenly spaced points from `lower`
to `upper`, both ends included (exact in ℚ, so the final point needs no
special-casing). -/
def linspace400 (lower upper : ℚ) : List ℚ :=
  (List.range 400).map (fun i : ℕ => lower + (upper - lower) * (i : ℚ) / 399)

/-- `np.max` on a list (the engine only applies it to nonempty lists). -/
def npMax : List ℚ → ℚ
  | [] => 0
  | [a] => a
  | a :: b :: rest => max a (npMax (b :: rest))

/-- `np.min` on a list (the engine only applies it to nonempty lists). -/
def npMin : List ℚ → ℚ
  | [] => 0
  | [a] => a
  | a :: b :: rest => min a (npMin (b :: rest))

/-- Index of the first occurrence of `v` in `l` (length of `l` when
absent; the engine only queries values that occur). -/
def firstIdx : List ℚ → ℚ → ℕ
  | [], _ => 0
  | a :: rest, v => if a = v then 0 else firstIdx rest v + 1

/-- `np.argmax`: first index attaining the maximum. -/
def npArgmax (l : List ℚ) : ℕ := firstIdx l (npMax l)

/-- `np.argmin`: first index attaining the minimum. -/
def npArgmin (l : List ℚ) : ℕ := firstIdx l (npMin l)

/-- Python's `str.startswith`, used by `compute_curve` to split legs
into LONG and SHORT by position-code prefix (embedded over the
character lists so that it evaluates). -/
def strStartsWith (s pre : String) : Bool :=
  s.data.take pre.data.length == pre.data

/-- The dictionary returned by `compute_curve` in `app/main.py`. -/
structure CurveResult where
  x : List ℚ
  y : List ℚ
  max_gain : ℚ
  min_gain : ℚ
  i_max : ℕ
  i_min : ℕ
  total_cost : ℚ
deriving Repr

/-- `compute_curve` in `app/main.py`: x-grid, aggregate P/L curve,
extrema with indices, and total entry cost. -/
def compute_curve (underlying_price : ℚ) (std_dev_pct : ℚ)
    (legs : List OptionLeg) : CurveResult :=
  let upper := underlying_price * (1 + std_dev_pct / 100)
  let lower := underlying_price * (1 - std_dev_pct / 100)
  let x := linspace400 lower upper
  let y := x.map (fun price =>
    legs.foldl (fun total leg => total + payoff price leg * (leg.quantity : ℚ)) 0)
  let long_total := (legs.filter (fun l => strStartsWith l.pos "LONG")).foldl
    (fun acc l => acc + l.premium * (l.quantity : ℚ)) 0
  let short_total := (legs.filter (fun l => strStartsWith l.pos "SHORT")).foldl
    (fun acc l => acc + l.premium * (l.quantity : ℚ)) 0
  { x := x
    y := y
    max_gain := npMax y
    min_gain := npMin y
    i_max := npArgmax y
    i_min := npArgmin y
    total_cost := long_total - short_total }

/-- The directional read computed in `main` of `app/main.py` (the value
is a translation key; `main` displays its translation). -/
def skew (underlying_price : ℚ) (x : List ℚ) (i_max : ℕ) : String :=
  let threshold := 5 / 100 * underlying_price
  let max_gain_stock_price := x.getD i_max 0
  if max_gain_stock_price > underlying_price + threshold then "bullish"
  else if max_gain_stock_price < underlying_price - threshold then "bearish"
  else "neutral"

/-- The invest suggestion computed in `main` of `app/main.py`. -/
def decision (max_gain : ℚ) : String :=
  if max_gain > 0 then "invest" else "dont_invest"

/-- The documented invariant on a leg: the `type`/`pos` pairing is one of
the four combined position codes (comment on `OptionLeg` in the source). -/
def validLeg (leg : OptionLeg) : Prop :=
  (leg.type = "CALL" ∧ (leg.pos = "LONG_CALL" ∨ leg.pos = "SHORT_CALL")) ∨
  (leg.type = "PUT" ∧ (leg.pos = "LONG_PUT" ∨ leg.pos = "SHORT_PUT"))

instance (leg : OptionLeg) : Decidable (validLeg leg) := by
  unfold validLeg; infer_instance

/-- A leg is long when its position code is one of the two LONG codes. -/
def isLong (leg : OptionLeg) : Prop :=
  leg.pos = "LONG_CALL" ∨ leg.pos = "LONG_PUT"

instance (leg : OptionLeg) : Decidable (isLong leg) := by
  unfold isLong; infer_instance

/-- A leg is short when its position code is one of the two SHORT codes. -/
def isShort (leg : OptionLeg) : Prop :=
  leg.pos = "SHORT_CALL" ∨ leg.pos = "SHORT_PUT"

instance (leg : OptionLeg) : Decidable (isShort leg) := by
  unfold isShort; infer_instance

/-- Intrinsic value of a leg at a price: `max (price − strike) 0` for a
CALL, `max (strike − price) 0` otherwise. -/
def intrinsicValue (leg : OptionLeg) (price : ℚ) : ℚ :=
  if leg.type = "CALL" then max (price - leg.strike) 0
  else max (leg.strike - price) 0

/-- Unfolding of `payoff` for a long call. -/
theorem payoff_call_long (leg : OptionLeg) (price : ℚ)
    (ht : leg.type = "CALL") (hp : leg.pos = "LONG_CALL") :
    payoff price leg = max (price - leg.strike) 0 - leg.premium := by
  unfold payoff; rw [if_pos ht, if_pos hp]

/-- Unfolding of `payoff` for a call not marked `"LONG_CALL"`. -/
theorem payoff_call_short (leg : OptionLeg) (price : ℚ)
    (ht : leg.type = "CALL") (hp : leg.pos ≠ "LONG_CALL") :
    payoff price leg = -(max (price - leg.strike) 0) + leg.premium := by
  unfold payoff; rw [if_pos ht, if_neg hp]

/-- Unfolding of `payoff` for a long put (any non-CALL type). -/
theorem payoff_put_long (leg : OptionLeg) (price : ℚ)
    (ht : leg.type ≠ "CALL") (hp : leg.pos = "LONG_PUT") :
    payoff price leg = max (leg.strike - price) 0 - leg.premium := by
  unfold payoff; rw [if_neg ht, if_pos hp]

/-- Unfolding of `payoff` for a non-CALL type not marked `"LONG_PUT"`. -/
theorem payoff_put_short (leg : OptionLeg) (price : ℚ)
    (ht : leg.type ≠ "CALL") (hp : leg.pos ≠ "LONG_PUT") :
    payoff price leg = -(max (leg.strike - price) 0) + leg.premium := by
  unfold payoff; rw [if_neg ht, if_neg hp]

/-- C1: for every leg with a valid kind/direction pairing and every
price, the single-leg payoff is intrinsic − premium when LONG and
premium − intrinsic when SHORT, with intrinsic `max (price − strike) 0`
for a CALL and `max (strike − price) 0` for a PUT; in particular a
LONG_CALL leg pays −premium below the strike and
price − strike − premium at or above it. -/
theorem payoff_valid_pairing (leg : OptionLeg) (price : ℚ) (h : validLeg leg) :
    payoff price leg =
      (if isLong leg then intrinsicValue leg price - leg.premium
       else leg.premium - intrinsicValue leg price) ∧
    (leg.pos = "LONG_CALL" →
      (price < leg.strike → payoff price leg = -leg.premium) ∧
      (leg.strike ≤ price → payoff price leg = price - leg.strike - leg.premium)) := by
  obtain ⟨ht, hp | hp⟩ | ⟨ht, hp | hp⟩ := h
  · refine ⟨?_, fun _ => ⟨?_, ?_⟩⟩
    · rw [payoff_call_long leg price ht hp, if_pos (show isLong leg from Or.inl hp)]
      unfold intrinsicValue; rw [if_pos ht]
    · intro hlt
      rw [payoff_call_long leg price ht hp,
        max_eq_right (by linarith : price - leg.strike ≤ 0)]
      ring
    · intro hge
      rw [payoff_call_long leg price ht hp,
        max_eq_left (by linarith : (0 : ℚ) ≤ price - leg.strike)]
  · have hne : leg.pos ≠ "LONG_CALL" := by rw [hp]; decide
    have hne' : ¬ isLong leg := by unfold isLong; rw [hp]; decide
    refine ⟨?_, fun hc => absurd hc hne⟩
    rw [payoff_call_short leg price ht hne, if_neg hne']
    unfold intrinsicValue; rw [if_pos ht]
    ring
  · have htne : leg.type ≠ "CALL" := by rw [ht]; decide
    have hne : leg.pos ≠ "LONG_CALL" := by rw [hp]; decide
    refine ⟨?_, fun hc => absurd hc hne⟩
    rw [payoff_put_long leg price htne hp, if_pos (show isLong leg from Or.inr hp)]
    unfold intrinsicValue; rw [if_neg htne]
  · have htne : leg.type ≠ "CALL" := by rw [ht]; decide
    have hne : leg.pos ≠ "LONG_CALL" := by rw [hp]; decide
    have hpne : leg.pos ≠ "LONG_PUT" := by rw [hp]; decide
    have hne' : ¬ isLong leg := by unfold isLong; rw [hp]; decide
    refine ⟨?_, fun hc => absurd hc hne⟩
    rw [payoff_put_short leg price htne hpne, if_neg hne']
    unfold intrinsicValue; rw [if_neg htne]
    ring

/-- Witness for C1: a LONG_CALL leg with strike 100 and premium 5,
evaluated at price 110. -/
theorem payoff_valid_pairing_witness :
    validLeg ⟨"CALL", "LONG_CALL", 1, 5, 100⟩ ∧
    (payoff 110 ⟨"CALL", "LONG_CALL", 1, 5, 100⟩ =
      (if isLong ⟨"CALL", "LONG_CALL", 1, 5, 100⟩ then
        intrinsicValue ⟨"CALL", "LONG_CALL", 1, 5, 100⟩ 110 - 5
       else 5 - intrinsicValue ⟨"CALL", "LONG_CALL", 1, 5, 100⟩ 110) ∧
     ((⟨"CALL", "LONG_CALL", 1, 5, 100⟩ : OptionLeg).pos = "LONG_CALL" →
       ((110 : ℚ) < 100 → payoff 110 ⟨"CALL", "LONG_CALL", 1, 5, 100⟩ = -5) ∧
       ((100 : ℚ) ≤ 110 →
         payoff 110 ⟨"CALL", "LONG_CALL", 1, 5, 100⟩ = 110 - 100 - 5))) :=
  ⟨by decide, payoff_valid_pairing ⟨"CALL", "LONG_CALL", 1, 5, 100⟩ 110 (by decide)⟩

/-- C9: the payoff function is total over all position codes: a CALL leg
whose `pos` is anything other than the exact string `"LONG_CALL"` is
treated as short, and a PUT leg whose `pos` is anything other than
`"LONG_PUT"` is treated as short. -/
theorem payoff_total_over_pos (leg : OptionLeg) (price : ℚ) :
    (leg.type = "CALL" → leg.pos ≠ "LONG_CALL" →
      payoff price leg = leg.premium - max (price - leg.strike) 0) ∧
    (leg.type = "PUT" → leg.pos ≠ "LONG_PUT" →
      payoff price leg = leg.premium - max (leg.strike - price) 0) := by
  constructor
  · intro ht hp
    rw [payoff_call_short leg price ht hp]
    ring
  · intro ht hp
    have htne : leg.type ≠ "CALL" := by rw [ht]; decide
    rw [payoff_put_short leg price htne hp]
    ring

/-- Witness for C9: a leg with type CALL but the invalid position code
LONG_PUT is priced as a short call. -/
theorem payoff_total_over_pos_witness :
    payoff 110 ⟨"CALL", "LONG_PUT", 1, 5, 100⟩ =
      5 - max ((110 : ℚ) - 100) 0 :=
  (payoff_total_over_pos ⟨"CALL", "LONG_PUT", 1, 5, 100⟩ 110).1 rfl (by decide)

/-- C7: with threshold band `0.05 * underlyingPrice` and
`priceAtMaxGain = x[indexOfMaxGain]`, the skew is "bullish" exactly when
the price at max gain exceeds `underlying + band`, "bearish" exactly
when it is below `underlying − band`, and "neutral" otherwise; the
decision is "invest" exactly when `maxGain > 0`, a function of maxGain
alone. -/
theorem skew_decision_spec (up mg : ℚ) (x : List ℚ) (i_max : ℕ) (hup : 0 < up) :
    (skew up x i_max = "bullish" ↔ x.getD i_max 0 > up + 5 / 100 * up) ∧
    (skew up x i_max = "bearish" ↔ x.getD i_max 0 < up - 5 / 100 * up) ∧
    (skew up x i_max = "neutral" ↔
      (x.getD i_max 0 ≤ up + 5 / 100 * up ∧ up - 5 / 100 * up ≤ x.getD i_max 0)) ∧
    (decision mg = "invest" ↔ mg > 0) := by
  have hdec : decision mg = (if mg > 0 then "invest" else "dont_invest") := rfl
  have hdecision : decision mg = "invest" ↔ mg > 0 := by
    by_cases h : mg > 0
    · rw [hdec, if_pos h]; exact ⟨fun _ => h, fun _ => rfl⟩
    · rw [hdec, if_neg h]; exact ⟨fun hc => absurd hc (by decide), fun hc => absurd hc h⟩
  have hskew : skew up x i_max =
      (if x.getD i_max 0 > up + 5 / 100 * up then "bullish"
       else if x.getD i_max 0 < up - 5 / 100 * up then "bearish"
       else "neutral") := rfl
  by_cases h1 : x.getD i_max 0 > up + 5 / 100 * up
  · rw [hskew, if_pos h1]
    exact ⟨⟨fun _ => h1, fun _ => rfl⟩,
      ⟨fun h => absurd h (by decide), fun h2 => absurd h1 (by linarith)⟩,
      ⟨fun h => absurd h (by decide), fun h' => absurd h1 (not_lt.mpr h'.1)⟩,
      hdecision⟩
  · rw [hskew, if_neg h1]
    by_cases h2 : x.getD i_max 0 < up - 5 / 100 * up
    · rw [if_pos h2]
      exact ⟨⟨fun h => absurd h (by decide), fun hgt => absurd hgt h1⟩,
        ⟨fun _ => h2, fun _ => rfl⟩,
        ⟨fun h => absurd h (by decide), fun h' => absurd h2 (not_lt.mpr h'.2)⟩,
        hdecision⟩
    · rw [if_neg h2]
      exact ⟨⟨fun h => absurd h (by decide), fun hgt => absurd hgt h1⟩,
        ⟨fun h => absurd h (by decide), fun hlt => absurd hlt h2⟩,
        ⟨fun _ => ⟨not_lt.mp h1, not_lt.mp h2⟩, fun _ => rfl⟩,
        hdecision⟩

/-- The x-grid of `compute_curve` is the 400-point linspace between the
bounds derived from the underlying price and the range percentage. -/
theorem compute_curve_x (up rp : ℚ) (legs : List OptionLeg) :
    (compute_curve up rp legs).x =
      linspace400 (up * (1 - rp / 100)) (up * (1 + rp / 100)) := rfl

/-- The y-values of `compute_curve` are the accumulation loop mapped
over the x-grid. -/
theorem compute_curve_y (up rp : ℚ) (legs : List OptionLeg) :
    (compute_curve up rp legs).y =
      (compute_curve up rp legs).x.map (fun price =>
        legs.foldl
          (fun total leg => total + payoff price leg * (leg.quantity : ℚ)) 0) := rfl

/-- `linspace400` always yields 400 points. -/
theorem linspace400_length (lower upper : ℚ) :
    (linspace400 lower upper).length = 400 := by
  unfold linspace400; rw [List.length_map, List.length_range]

/-- Closed form of each `linspace400` grid point. -/
theorem linspace400_getD (lower upper : ℚ) (i : ℕ) (h : i < 400) (d : ℚ) :
    (linspace400 lower upper).getD i d =
      lower + (upper - lower) * (i : ℚ) / 399 := by
  unfold linspace400
  rw [List.getD_eq_getElem?_getD, List.getElem?_map, List.getElem?_range h]
  rfl

/-- `getD` commutes with `map` at valid indices. -/
theorem getD_map_of_lt {α β : Type} (f : α → β) :
    ∀ (l : List α) (i : ℕ), i < l.length → ∀ (d : α) (d' : β),
      (l.map f).getD i d' = f (l.getD i d) := by
  intro l
  induction l with
  | nil => intro i hi; exact absurd hi (by simp)
  | cons a rest ih =>
    intro i hi d d'
    cases i with
    | zero => rfl
    | succ j =>
      simp only [List.map_cons, List.getD_cons_succ]
      exact ih j (Nat.lt_of_succ_lt_succ (by simpa using hi)) d d'

/-- The accumulating payoff loop of `compute_curve` equals the mapped
sum of quantity-weighted leg payoffs. -/
theorem payoff_foldl_eq_sum (price : ℚ) : ∀ (legs : List OptionLeg) (a : ℚ),
    legs.foldl
        (fun total leg => total + payoff price leg * (leg.quantity : ℚ)) a =
      a + (legs.map (fun leg => payoff price leg * (leg.quantity : ℚ))).sum := by
  intro legs
  induction legs with
  | nil => intro a; simp
  | cons leg rest ih =>
    intro a
    rw [List.foldl_cons, ih, List.map_cons, List.sum_cons]
    ring

/-- The premium accumulation of `compute_curve` equals the mapped sum of
quantity-weighted premiums. -/
theorem premium_foldl_eq_sum : ∀ (legs : List OptionLeg) (a : ℚ),
    legs.foldl (fun acc l => acc + l.premium * (l.quantity : ℚ)) a =
      a + (legs.map (fun l => l.premium * (l.quantity : ℚ))).sum := by
  intro legs
  induction legs with
  | nil => intro a; simp
  | cons leg rest ih =>
    intro a
    rw [List.foldl_cons, ih, List.map_cons, List.sum_cons]
    ring

/-- C2: at every grid point the aggregate y-value is the sum over the
legs of the single-leg payoff at that price times the leg's (possibly
negative) quantity. -/
theorem curve_y_superposition (up rp : ℚ) (legs : List OptionLeg) (i : ℕ)
    (h : i < 400) :
    (compute_curve up rp legs).y.getD i 0 =
      (legs.map (fun leg =>
        payoff ((compute_curve up rp legs).x.getD i 0) leg *
          (leg.quantity : ℚ))).sum := by
  have hx : i < (compute_curve up rp legs).x.length := by
    rw [compute_curve_x, linspace400_length]; exact h
  rw [compute_curve_y,
    getD_map_of_lt _ ((compute_curve up rp legs).x) i hx 0 0]
  simp only [payoff_foldl_eq_sum, zero_add]

/-- Witness for C2: a two-leg strategy with a negative quantity,
evaluated at the first grid point. -/
theorem curve_y_superposition_witness :
    (0 : ℕ) < 400 ∧
    (compute_curve 100 10 [⟨"CALL", "LONG_CALL", 1, 5, 100⟩,
        ⟨"PUT", "SHORT_PUT", -2, 3, 95⟩]).y.getD 0 0 =
      ([⟨"CALL", "LONG_CALL", 1, 5, 100⟩,
        (⟨"PUT", "SHORT_PUT", -2, 3, 95⟩ : OptionLeg)].map
        (fun leg =>
          payoff ((compute_curve 100 10 [⟨"CALL", "LONG_CALL", 1, 5, 100⟩,
            ⟨"PUT", "SHORT_PUT", -2, 3, 95⟩]).x.getD 0 0) leg *
            (leg.quantity : ℚ))).sum :=
  ⟨by norm_num,
    curve_y_superposition 100 10 [⟨"CALL", "LONG_CALL", 1, 5, 100⟩,
      ⟨"PUT", "SHORT_PUT", -2, 3, 95⟩] 0 (by norm_num)⟩

/-- C3: the grid has exactly 400 points, runs from
`underlying * (1 − rangePct/100)` to `underlying * (1 + rangePct/100)`
inclusive with even spacing and no clamping; underlying 100 with range
10 starts at 90 and ends at 110. -/
theorem compute_curve_grid (up rp : ℚ) (legs : List OptionLeg) :
    (compute_curve up rp legs).x.length = 400 ∧
    (compute_curve up rp legs).x.getD 0 0 = up * (1 - rp / 100) ∧
    (compute_curve up rp legs).x.getD 399 0 = up * (1 + rp / 100) ∧
    (∀ i : ℕ, i < 400 →
      (compute_curve up rp legs).x.getD i 0 =
        up * (1 - rp / 100) +
          (up * (1 + rp / 100) - up * (1 - rp / 100)) * (i : ℚ) / 399) ∧
    (compute_curve 100 10 []).x.getD 0 0 = 90 ∧
    (compute_curve 100 10 []).x.getD 399 0 = 110 := by
  refine ⟨?_, ?_, ?_, ?_, ?_, ?_⟩
  · rw [compute_curve_x]; exact linspace400_length _ _
  · rw [compute_curve_x, linspace400_getD _ _ 0 (by norm_num) 0]
    push_cast; ring
  · rw [compute_curve_x, linspace400_getD _ _ 399 (by norm_num) 0]
    push_cast; ring
  · intro i hi
    rw [compute_curve_x, linspace400_getD _ _ i hi 0]
  · rw [compute_curve_x, linspace400_getD _ _ 0 (by norm_num) 0]
    norm_num
  · rw [compute_curve_x, linspace400_getD _ _ 399 (by norm_num) 0]
    norm_num

/-- Witness for C7: underlying price 100, price at max gain 110, max
gain 5 give "bullish" above the band and "invest". -/
theorem skew_decision_spec_witness :
    (0 : ℚ) < 100 ∧
    ((skew 100 [(110 : ℚ)] 0 = "bullish" ↔
        ([(110 : ℚ)].getD 0 0 > 100 + 5 / 100 * 100) ) ∧
     (skew 100 [(110 : ℚ)] 0 = "bearish" ↔
        ([(110 : ℚ)].getD 0 0 < 100 - 5 / 100 * 100)) ∧
     (skew 100 [(110 : ℚ)] 0 = "neutral" ↔
        ([(110 : ℚ)].getD 0 0 ≤ 100 + 5 / 100 * 100 ∧
         100 - 5 / 100 * 100 ≤ [(110 : ℚ)].getD 0 0)) ∧
     (decision 5 = "invest" ↔ (5 : ℚ) > 0)) :=
  ⟨by norm_num, skew_decision_spec 100 5 [(110 : ℚ)] 0 (by norm_num)⟩

/-- The aggregate y-values of `compute_curve` as a standalone function,
for stating the scalar-field equations in constructor form. -/
def curveY (up rp : ℚ) (legs : List OptionLeg) : List ℚ :=
  (linspace400 (up * (1 - rp / 100)) (up * (1 + rp / 100))).map (fun price =>
    legs.foldl (fun total leg => total + payoff price leg * (leg.quantity : ℚ)) 0)

/-- `compute_curve` in constructor form. -/
theorem compute_curve_eq (up rp : ℚ) (legs : List OptionLeg) :
    compute_curve up rp legs =
      { x := linspace400 (up * (1 - rp / 100)) (up * (1 + rp / 100))
        y := curveY up rp legs
        max_gain := npMax (curveY up rp legs)
        min_gain := npMin (curveY up rp legs)
        i_max := npArgmax (curveY up rp legs)
        i_min := npArgmin (curveY up rp legs)
        total_cost :=
          (legs.filter (fun l => strStartsWith l.pos "LONG")).foldl
            (fun acc l => acc + l.premium * (l.quantity : ℚ)) 0 -
          (legs.filter (fun l => strStartsWith l.pos "SHORT")).foldl
            (fun acc l => acc + l.premium * (l.quantity : ℚ)) 0 } := rfl

/-- The y-values of `compute_curve` are `curveY`. -/
theorem compute_curve_y_curveY (up rp : ℚ) (legs : List OptionLeg) :
    (compute_curve up rp legs).y = curveY up rp legs := by
  rw [compute_curve_eq]

/-- The scalar fields of `compute_curve` unfold to the NumPy reductions
over the y-values. -/
theorem compute_curve_scalars (up rp : ℚ) (legs : List OptionLeg) :
    (compute_curve up rp legs).max_gain = npMax (curveY up rp legs) ∧
    (compute_curve up rp legs).min_gain = npMin (curveY up rp legs) ∧
    (compute_curve up rp legs).i_max = npArgmax (curveY up rp legs) ∧
    (compute_curve up rp legs).i_min = npArgmin (curveY up rp legs) := by
  refine ⟨?_, ?_, ?_, ?_⟩ <;> rw [compute_curve_eq]

/-- `total_cost` unfolds to the difference of the two premium folds. -/
theorem compute_curve_total_cost (up rp : ℚ) (legs : List OptionLeg) :
    (compute_curve up rp legs).total_cost =
      (legs.filter (fun l => strStartsWith l.pos "LONG")).foldl
        (fun acc l => acc + l.premium * (l.quantity : ℚ)) 0 -
      (legs.filter (fun l => strStartsWith l.pos "SHORT")).foldl
        (fun acc l => acc + l.premium * (l.quantity : ℚ)) 0 := rfl

/-- C4: for legs satisfying the valid-pairing invariant, `total_cost` is
the sum of premium × quantity over LONG legs minus the same sum over
SHORT legs (net debit; negative means net credit). -/
theorem total_cost_spec (up rp : ℚ) (legs : List OptionLeg)
    (h : ∀ leg ∈ legs, validLeg leg) :
    (compute_curve up rp legs).total_cost =
      ((legs.filter (fun l => decide (isLong l))).map
        (fun l => l.premium * (l.quantity : ℚ))).sum -
      ((legs.filter (fun l => decide (isShort l))).map
        (fun l => l.premium * (l.quantity : ℚ))).sum := by
  have hL : legs.filter (fun l => strStartsWith l.pos "LONG") =
      legs.filter (fun l => decide (isLong l)) := by
    apply List.filter_congr
    intro l hl
    obtain ⟨ht, hp | hp⟩ | ⟨ht, hp | hp⟩ := h l hl <;>
      simp only [isLong, hp] <;> decide
  have hS : legs.filter (fun l => strStartsWith l.pos "SHORT") =
      legs.filter (fun l => decide (isShort l)) := by
    apply List.filter_congr
    intro l hl
    obtain ⟨ht, hp | hp⟩ | ⟨ht, hp | hp⟩ := h l hl <;>
      simp only [isShort, hp] <;> decide
  rw [compute_curve_total_cost, hL, hS, premium_foldl_eq_sum,
    premium_foldl_eq_sum, zero_add, zero_add]

/-- Witness for C4: one LONG_CALL with premium 5 and one SHORT_CALL with
premium 3, both quantity 1; the spec's example gives total cost 2. -/
theorem total_cost_spec_witness :
    (∀ leg ∈ [(⟨"CALL", "LONG_CALL", 1, 5, 100⟩ : OptionLeg),
        ⟨"CALL", "SHORT_CALL", 1, 3, 100⟩], validLeg leg) ∧
    ((compute_curve 100 10 [⟨"CALL", "LONG_CALL", 1, 5, 100⟩,
        ⟨"CALL", "SHORT_CALL", 1, 3, 100⟩]).total_cost =
      (([(⟨"CALL", "LONG_CALL", 1, 5, 100⟩ : OptionLeg),
          ⟨"CALL", "SHORT_CALL", 1, 3, 100⟩].filter
          (fun l => decide (isLong l))).map
          (fun l => l.premium * (l.quantity : ℚ))).sum -
      (([(⟨"CALL", "LONG_CALL", 1, 5, 100⟩ : OptionLeg),
          ⟨"CALL", "SHORT_CALL", 1, 3, 100⟩].filter
          (fun l => decide (isShort l))).map
          (fun l => l.premium * (l.quantity : ℚ))).sum) ∧
    (compute_curve 100 10 [⟨"CALL", "LONG_CALL", 1, 5, 100⟩,
        ⟨"CALL", "SHORT_CALL", 1, 3, 100⟩]).total_cost = 2 :=
  ⟨by decide,
    total_cost_spec 100 10 [⟨"CALL", "LONG_CALL", 1, 5, 100⟩,
      ⟨"CALL", "SHORT_CALL", 1, 3, 100⟩] (by decide),
    by
      rw [compute_curve_total_cost]
      simp +decide [List.filter_cons, List.filter_nil, List.foldl_cons,
        List.foldl_nil]
      norm_num⟩

/-- `getD` of a replicated value is that value at every index. -/
theorem getD_replicate_self {α : Type} (d : α) :
    ∀ (n i : ℕ), (List.replicate n d).getD i d = d := by
  intro n
  induction n with
  | zero => intro i; rfl
  | succ m ih =>
    intro i
    cases i with
    | zero => rfl
    | succ j => rw [List.replicate_succ, List.getD_cons_succ]; exact ih j

/-- `npMax` of a cons with nonempty tail steps by `max`. -/
theorem npMax_cons (a : ℚ) (l : List ℚ) (h : l ≠ []) :
    npMax (a :: l) = max a (npMax l) := by
  cases l with
  | nil => exact absurd rfl h
  | cons b rest => rfl

/-- `npMin` of a cons with nonempty tail steps by `min`. -/
theorem npMin_cons (a : ℚ) (l : List ℚ) (h : l ≠ []) :
    npMin (a :: l) = min a (npMin l) := by
  cases l with
  | nil => exact absurd rfl h
  | cons b rest => rfl

/-- `npMax` of a nonempty all-zero list is zero. -/
theorem npMax_replicate_zero : ∀ n : ℕ, npMax (List.replicate (n + 1) (0 : ℚ)) = 0 := by
  intro n
  induction n with
  | zero => rfl
  | succ m ih =>
    rw [List.replicate_succ, npMax_cons 0 _ (by simp), ih, max_self]

/-- `npMin` of a nonempty all-zero list is zero. -/
theorem npMin_replicate_zero : ∀ n : ℕ, npMin (List.replicate (n + 1) (0 : ℚ)) = 0 := by
  intro n
  induction n with
  | zero => rfl
  | succ m ih =>
    rw [List.replicate_succ, npMin_cons 0 _ (by simp), ih, min_self]

/-- C5: `compute_curve` on an empty leg list is total and returns a
curve that is identically zero, with total cost zero and max gain equal
to min gain equal to zero. -/
theorem compute_curve_empty (up rp : ℚ) :
    (compute_curve up rp []).y = List.replicate 400 (0 : ℚ) ∧
    (∀ i : ℕ, (compute_curve up rp []).y.getD i 0 = 0) ∧
    (compute_curve up rp []).total_cost = 0 ∧
    (compute_curve up rp []).max_gain = 0 ∧
    (compute_curve up rp []).min_gain = 0 := by
  have hy : (compute_curve up rp []).y = List.replicate 400 (0 : ℚ) := by
    rw [compute_curve_y]
    have hfun : (fun price : ℚ =>
        List.foldl (fun total leg => total + payoff price leg * (leg.quantity : ℚ))
          0 ([] : List OptionLeg)) = fun _ : ℚ => (0 : ℚ) := rfl
    rw [hfun, List.map_const', compute_curve_x, linspace400_length]
  have hy' : curveY up rp [] = List.replicate 400 (0 : ℚ) := by
    rw [← compute_curve_y_curveY]; exact hy
  refine ⟨hy, ?_, ?_, ?_, ?_⟩
  · intro i; rw [hy]; exact getD_replicate_self 0 400 i
  · rw [compute_curve_total_cost]
    norm_num
  · rw [(compute_curve_scalars up rp []).1, hy']
    exact npMax_replicate_zero 399
  · rw [(compute_curve_scalars up rp []).2.1, hy']
    exact npMin_replicate_zero 399

/-- `npMax` of a nonempty list is an element of it. -/
theorem npMax_mem : ∀ (l : List ℚ), l ≠ [] → npMax l ∈ l := by
  intro l
  induction l with
  | nil => intro h; exact absurd rfl h
  | cons a rest ih =>
    intro _
    cases rest with
    | nil => simp [npMax]
    | cons b r =>
      rw [npMax_cons a (b :: r) (by simp)]
      rcases max_choice a (npMax (b :: r)) with h | h
      · rw [h]; exact List.mem_cons_self a _
      · rw [h]; exact List.mem_cons_of_mem a (ih (by simp))

/-- `npMin` of a nonempty list is an element of it. -/
theorem npMin_mem : ∀ (l : List ℚ), l ≠ [] → npMin l ∈ l := by
  intro l
  induction l with
  | nil => intro h; exact absurd rfl h
  | cons a rest ih =>
    intro _
    cases rest with
    | nil => simp [npMin]
    | cons b r =>
      rw [npMin_cons a (b :: r) (by simp)]
      rcases min_choice a (npMin (b :: r)) with h | h
      · rw [h]; exact List.mem_cons_self a _
      · rw [h]; exact List.mem_cons_of_mem a (ih (by simp))

/-- Every element of a list is at most its `npMax`. -/
theorem le_npMax : ∀ (l : List ℚ) (a : ℚ), a ∈ l → a ≤ npMax l := by
  intro l
  induction l with
  | nil => intro a ha; exact absurd ha (by simp)
  | cons b rest ih =>
    intro a ha
    cases rest with
    | nil =>
      rw [List.mem_singleton] at ha
      subst ha
      exact le_of_eq rfl
    | cons c r =>
      rw [npMax_cons b (c :: r) (by simp)]
      rcases List.mem_cons.mp ha with h | h
      · rw [h]; exact le_max_left _ _
      · exact le_trans (ih a h) (le_max_right _ _)

/-- Every element of a list is at least its `npMin`. -/
theorem npMin_le : ∀ (l : List ℚ) (a : ℚ), a ∈ l → npMin l ≤ a := by
  intro l
  induction l with
  | nil => intro a ha; exact absurd ha (by simp)
  | cons b rest ih =>
    intro a ha
    cases rest with
    | nil =>
      rw [List.mem_singleton] at ha
      subst ha
      exact le_of_eq rfl
    | cons c r =>
      rw [npMin_cons b (c :: r) (by simp)]
      rcases List.mem_cons.mp ha with h | h
      · rw [h]; exact min_le_left _ _
      · exact le_trans (min_le_right _ _) (ih a h)

/-- The first index of a value that occurs in the list is in bounds. -/
theorem firstIdx_lt_length (v : ℚ) : ∀ (l : List ℚ), v ∈ l →
    firstIdx l v < l.length := by
  intro l
  induction l with
  | nil => intro h; exact absurd h (by simp)
  | cons a rest ih =>
    intro h
    by_cases hav : a = v
    · unfold firstIdx; rw [if_pos hav]; simp
    · unfold firstIdx; rw [if_neg hav]
      have hm : v ∈ rest := by
        rcases List.mem_cons.mp h with h' | h'
        · exact absurd h'.symm hav
        · exact h'
      simpa using Nat.succ_lt_succ (ih hm)

/-- Reading the list at the first index of an occurring value gives the
value back. -/
theorem getD_firstIdx (v d : ℚ) : ∀ (l : List ℚ), v ∈ l →
    l.getD (firstIdx l v) d = v := by
  intro l
  induction l with
  | nil => intro h; exact absurd h (by simp)
  | cons a rest ih =>
    intro h
    by_cases hav : a = v
    · unfold firstIdx; rw [if_pos hav, List.getD_cons_zero]; exact hav
    · unfold firstIdx; rw [if_neg hav, List.getD_cons_succ]
      apply ih
      rcases List.mem_cons.mp h with h' | h'
      · exact absurd h'.symm hav
      · exact h'

/-- Before the first index of a value, the list never holds the value. -/
theorem getD_ne_of_lt_firstIdx (v d : ℚ) :
    ∀ (l : List ℚ) (j : ℕ), j < firstIdx l v → l.getD j d ≠ v := by
  intro l
  induction l with
  | nil =>
    intro j hj
    exact absurd hj (by unfold firstIdx; exact Nat.not_lt_zero j)
  | cons a rest ih =>
    intro j hj
    by_cases hav : a = v
    · unfold firstIdx at hj; rw [if_pos hav] at hj
      exact absurd hj (Nat.not_lt_zero j)
    · unfold firstIdx at hj; rw [if_neg hav] at hj
      cases j with
      | zero => rw [List.getD_cons_zero]; exact hav
      | succ k =>
        rw [List.getD_cons_succ]
        exact ih k (Nat.lt_of_succ_lt_succ hj)

/-- Reading a list at an in-bounds index yields an element of it. -/
theorem getD_mem_of_lt {α : Type} (d : α) :
    ∀ (l : List α) (i : ℕ), i < l.length → l.getD i d ∈ l := by
  intro l
  induction l with
  | nil => intro i hi; exact absurd hi (by simp)
  | cons a rest ih =>
    intro i hi
    cases i with
    | zero => rw [List.getD_cons_zero]; exact List.mem_cons_self a rest
    | succ k =>
      rw [List.getD_cons_succ]
      exact List.mem_cons_of_mem a
        (ih k (Nat.lt_of_succ_lt_succ (by simpa using hi)))

/-- C6: `max_gain`/`min_gain` are attained values of y, their indices
are in bounds, every y-value lies between them, and both indices are
the first (lowest) index attaining the extreme value. -/
theorem extrema_argmax_argmin (up rp : ℚ) (legs : List OptionLeg) :
    (compute_curve up rp legs).i_max < (compute_curve up rp legs).y.length ∧
    (compute_curve up rp legs).i_min < (compute_curve up rp legs).y.length ∧
    (compute_curve up rp legs).y.getD (compute_curve up rp legs).i_max 0 =
      (compute_curve up rp legs).max_gain ∧
    (compute_curve up rp legs).y.getD (compute_curve up rp legs).i_min 0 =
      (compute_curve up rp legs).min_gain ∧
    (∀ j : ℕ, j < (compute_curve up rp legs).y.length →
      (compute_curve up rp legs).y.getD j 0 ≤ (compute_curve up rp legs).max_gain) ∧
    (∀ j : ℕ, j < (compute_curve up rp legs).y.length →
      (compute_curve up rp legs).min_gain ≤ (compute_curve up rp legs).y.getD j 0) ∧
    (∀ j : ℕ, j < (compute_curve up rp legs).i_max →
      (compute_curve up rp legs).y.getD j 0 < (compute_curve up rp legs).max_gain) ∧
    (∀ j : ℕ, j < (compute_curve up rp legs).i_min →
      (compute_curve up rp legs).min_gain < (compute_curve up rp legs).y.getD j 0) := by
  have hylen : (curveY up rp legs).length = 400 := by
    unfold curveY; rw [List.length_map, linspace400_length]
  have hne : curveY up rp legs ≠ [] := by
    intro hc; rw [hc] at hylen; simp at hylen
  have hmaxmem : npMax (curveY up rp legs) ∈ curveY up rp legs := npMax_mem _ hne
  have hminmem : npMin (curveY up rp legs) ∈ curveY up rp legs := npMin_mem _ hne
  obtain ⟨hmax, hmin, himax, himin⟩ := compute_curve_scalars up rp legs
  rw [compute_curve_y_curveY, hmax, hmin, himax, himin]
  unfold npArgmax npArgmin
  refine ⟨firstIdx_lt_length _ _ hmaxmem, firstIdx_lt_length _ _ hminmem,
    getD_firstIdx _ _ _ hmaxmem, getD_firstIdx _ _ _ hminmem,
    fun j hj => le_npMax _ _ (getD_mem_of_lt _ _ j hj),
    fun j hj => npMin_le _ _ (getD_mem_of_lt _ _ j hj),
    fun j hj => lt_of_le_of_ne
      (le_npMax _ _ (getD_mem_of_lt _ _ j
        (lt_trans hj (firstIdx_lt_length _ _ hmaxmem))))
      (getD_ne_of_lt_firstIdx _ _ _ j hj),
    fun j hj => lt_of_le_of_ne
      (npMin_le _ _ (getD_mem_of_lt _ _ j
        (lt_trans hj (firstIdx_lt_length _ _ hminmem))))
      (Ne.symm (getD_ne_of_lt_firstIdx _ _ _ j hj))⟩

/-- Counterexample to C8 as stated: rangePct = 0 satisfies the
documented precondition rangePct ≥ 0, but then every grid point equals
the underlying price, so x is not strictly ascending. -/
theorem grid_ascending_counterexample :
    (0 : ℚ) < 100 ∧ (0 : ℚ) ≤ 0 ∧
    (compute_curve 100 0 []).x.getD 0 0 = 100 ∧
    (compute_curve 100 0 []).x.getD 1 0 = 100 ∧
    ¬ ((compute_curve 100 0 []).x.getD 0 0 <
        (compute_curve 100 0 []).x.getD 1 0) := by
  have h0 : (compute_curve 100 0 []).x.getD 0 0 = 100 := by
    rw [compute_curve_x, linspace400_getD _ _ 0 (by norm_num) 0]; norm_num
  have h1 : (compute_curve 100 0 []).x.getD 1 0 = 100 := by
    rw [compute_curve_x, linspace400_getD _ _ 1 (by norm_num) 0]; norm_num
  exact ⟨by norm_num, le_refl 0, h0, h1, by rw [h0, h1]; exact lt_irrefl 100⟩

/-- C8 amended: under underlyingPrice > 0 and rangePct > 0 (strict,
which the counterexample forces), x has exactly 400 elements in strictly
ascending order and y has the same length. -/
theorem grid_ascending_amended (up rp : ℚ) (legs : List OptionLeg)
    (h1 : 0 < up) (h2 : 0 < rp) :
    (compute_curve up rp legs).x.length = 400 ∧
    (compute_curve up rp legs).y.length = 400 ∧
    (∀ i : ℕ, i + 1 < 400 →
      (compute_curve up rp legs).x.getD i 0 <
        (compute_curve up rp legs).x.getD (i + 1) 0) := by
  refine ⟨?_, ?_, ?_⟩
  · rw [compute_curve_x]; exact linspace400_length _ _
  · rw [compute_curve_y_curveY]; unfold curveY
    rw [List.length_map, linspace400_length]
  · intro i hi
    rw [compute_curve_x, linspace400_getD _ _ i (by omega) 0,
      linspace400_getD _ _ (i + 1) hi 0]
    have hD : (0 : ℚ) < up * (1 + rp / 100) - up * (1 - rp / 100) := by nlinarith
    push_cast
    have hmul : (up * (1 + rp / 100) - up * (1 - rp / 100)) * (i : ℚ) <
        (up * (1 + rp / 100) - up * (1 - rp / 100)) * ((i : ℚ) + 1) :=
      mul_lt_mul_of_pos_left (by linarith) hD
    linarith

/-- Witness for the amended C8: underlying 100, range 10, empty legs. -/
theorem grid_ascending_amended_witness :
    (0 : ℚ) < 100 ∧ (0 : ℚ) < 10 ∧
    ((compute_curve 100 10 []).x.length = 400 ∧
     (compute_curve 100 10 []).y.length = 400 ∧
     (∀ i : ℕ, i + 1 < 400 →
       (compute_curve 100 10 []).x.getD i 0 <
         (compute_curve 100 10 []).x.getD (i + 1) 0)) :=
  ⟨by norm_num, by norm_num,
    grid_ascending_amended 100 10 [] (by norm_num) (by norm_num)⟩

/-- English translation table from `app/i18n.py`, in source order. -/
def EN_TABLE : List (String × String) :=
  [("app_title", "Option Tool"),
   ("inputs", "Inputs"),
   ("underlying_price", "Underlying Stock Price"),
   ("std_dev_pct", "Price range (%)"),
   ("num_combos", "Number of Option Combinations"),
   ("option_n", "Option \x7bn\x7d"),
   ("option_type", "Option Type"),
   ("position", "Position"),
   ("quantity", "Quantity"),
   ("premium", "Premium"),
   ("strike_price", "Strike Price"),
   ("call", "Call"),
   ("put", "Put"),
   ("long_call", "Long Call"),
   ("short_call", "Short Call"),
   ("long_put", "Long Put"),
   ("short_put", "Short Put"),
   ("payoff_diagram", "Payoff Diagram"),
   ("xaxis_title", "Stock Price at Expiry"),
   ("yaxis_title", "Net Payoff"),
   ("max_gain", "Max Gain"),
   ("min_gain", "Min Gain"),
   ("total_cost", "Total cost to enter the position"),
   ("max_gain_label", "Maximum Gain"),
   ("min_gain_label", "Minimum Gain (Max Loss)"),
   ("bullish", "Bullish"),
   ("bearish", "Bearish"),
   ("neutral", "Neutral"),
   ("invest", "Invest"),
   ("dont_invest", "Don\x27t Invest"),
   ("footer", "Powered by ToxicVolt"),
   ("language", "Language"),
   ("lang_en", "English"),
   ("lang_ru", "Russian"),
   ("lang_uk", "Ukrainian"),
   ("show_zero_line", "Show P/L = 0 line"),
   ("show_strike_lines", "Show strike lines"),
   ("show_underlying_line", "Show underlying price line")]

/-- Ukrainian translation table from `app/i18n.py`, in source order. -/
def UK_TABLE : List (String × String) :=
  [("app_title", "Інструмент опціонів"),
   ("inputs", "Параметри"),
   ("underlying_price", "Ціна базового активу"),
   ("std_dev_pct", "Диапазон цен (±%)"),
   ("num_combos", "Кількість комбінацій опціонів"),
   ("option_n", "Опціон \x7bn\x7d"),
   ("option_type", "Тип опціону"),
   ("position", "Позиція"),
   ("quantity", "Кількість"),
   ("premium", "Премія"),
   ("strike_price", "Страйк"),
   ("call", "Колл"),
   ("put", "Пут"),
   ("long_call", "Покупка колла"),
   ("short_call", "Продаж колла"),
   ("long_put", "Покупка пута"),
   ("short_put", "Продаж пута"),
   ("payoff_diagram", "Діаграма прибутку/збитку"),
   ("xaxis_title", "Ціна активу на експірації"),
   ("yaxis_title", "Сумарний результат"),
   ("max_gain", "Макс. прибуток"),
   ("min_gain", "Мін. результат"),
   ("total_cost", "Вартість входу в позицію"),
   ("max_gain_label", "Максимальний прибуток"),
   ("min_gain_label", "Мінімальний результат (макс. збиток)"),
   ("bullish", "Бичачий"),
   ("bearish", "Ведмежий"),
   ("neutral", "Нейтральний"),
   ("invest", "Інвестувати"),
   ("dont_invest", "Не інвестувати"),
   ("footer", "Powered by ToxicVolt"),
   ("language", "Мова"),
   ("lang_en", "Англійська"),
   ("lang_ru", "Російська"),
   ("lang_uk", "Українська"),
   ("show_zero_line", "Показати лінію P/L = 0"),
   ("show_strike_lines", "Показати лінії страйків"),
   ("show_underlying_line", "Показати лінію поточної ціни")]

/-- The `TRANSLATIONS` dictionary of `app/i18n.py`. -/
def TRANSLATIONS : List (String × List (String × String)) :=
  [("en", EN_TABLE), ("uk", UK_TABLE)]

/-- Python `dict.get(key)` on a translation table (keys are unique, so
association-list lookup models the dict). -/
def dictGet (d : List (String × String)) (key : String) : Option String :=
  List.lookup key d

/-- `TRANSLATIONS.get(lang)`. -/
def langGet (lang : String) : Option (List (String × String)) :=
  List.lookup lang TRANSLATIONS

/-- `t` from `app/i18n.py`, with the session language passed explicitly.
The trailing `.format(**fmt)` applies only when format arguments are
passed and is omitted here. -/
def t (lang key : String) : String :=
  let d := (langGet lang).getD EN_TABLE
  (dictGet d key).getD ((dictGet EN_TABLE key).getD key)

/-- C10: `t` never fails: it returns the current language's string when
the key is present there, else the English string when the English table
has the key, else the key itself; an unknown language code falls back to
the English table. -/
theorem t_lookup_fallback (lang key : String) :
    (∀ s, dictGet ((langGet lang).getD EN_TABLE) key = some s →
      t lang key = s) ∧
    (dictGet ((langGet lang).getD EN_TABLE) key = none →
      (∀ s, dictGet EN_TABLE key = some s → t lang key = s) ∧
      (dictGet EN_TABLE key = none → t lang key = key)) ∧
    (langGet lang = none → ∀ k, t lang k = t "en" k) := by
  have ht : t lang key = (dictGet ((langGet lang).getD EN_TABLE) key).getD
      ((dictGet EN_TABLE key).getD key) := rfl
  refine ⟨?_, ?_, ?_⟩
  · intro s hs
    rw [ht, hs]
    rfl
  · intro hnone
    constructor
    · intro s hs
      rw [ht, hnone, hs]
      rfl
    · intro hennone
      rw [ht, hnone, hennone]
      rfl
  · intro hlang k
    have h1 : t lang k = (dictGet ((langGet lang).getD EN_TABLE) k).getD
        ((dictGet EN_TABLE k).getD k) := rfl
    have h2 : t "en" k = (dictGet ((langGet "en").getD EN_TABLE) k).getD
        ((dictGet EN_TABLE k).getD k) := rfl
    have hen : langGet "en" = some EN_TABLE := rfl
    rw [h1, h2, hlang, hen, Option.getD_none, Option.getD_some]

/-- Witness for C10: the key "inputs" is present in the Ukrainian table
and `t` returns its Ukrainian translation. -/
theorem t_lookup_fallback_witness :
    dictGet ((langGet "uk").getD EN_TABLE) "inputs" = some "Параметри" ∧
    t "uk" "inputs" = "Параметри" :=
  ⟨rfl, (t_lookup_fallback "uk" "inputs").1 "Параметри" rfl⟩

end OptionsLab
